import Mathlib

/-!
Verification of the MEDUSA solver-tile controller
(src/firmware/ksat/lib/MEDUSA/MEDUSA.cpp) against its natural-language
specification.

The definitions below are a shallow embedding of the controller code:
machine integers are modelled as Nat (all register values are 32-bit
unsigned; overflow cannot occur in the modelled arithmetic because every
operand stays far below 2 to the 32), the float arithmetic of the
sampling-time conversion is modelled exactly over the rationals, and the
hardware polling loops are modelled as fuel-indexed recursions over an
explicit trace of register-read values.

The constants of the header MEDUSA.h are not part of the sources; they are
modelled from the specification (each such definition carries a doc comment
saying so).
-/

namespace Medusa

/-! ## Constants -/

/-- Modelled from the spec: MEDUSA.h is absent from the sources.  Clause
capacity of one tile.  The spec describes the clause word lines as split in
two halves of the word-line space of a tile; the numeric value is a
representative choice consistent with the code (a fixed compile-time
capacity, independent of the runtime clause count). -/
def CNF_MAX_CLS : Nat := 504

/-- Modelled from the spec: MEDUSA.h is absent from the sources.  Half of
the tile clause capacity; the threshold the code uses to place a clause in
the top or the bottom half of the word-line space. -/
def HALF_CLS : Nat := 252

/-- Modelled from the spec: MEDUSA.h is absent from the sources.  First
word line of the top clause region (top clause word lines count upward from
here). -/
def TOP_CLS_START_WL : Nat := 290

/-- Modelled from the spec: MEDUSA.h is absent from the sources.  Last
word line of the bottom clause region (bottom clause word lines count
backward from here). -/
def BOT_CLS_START_WL : Nat := 253

/-- Modelled from the spec: MEDUSA.h is absent from the sources.  Number of
32-bit bit-line words of a tile; the last word carries the clause-enable
bit. -/
def BL_WORDS : Nat := 9

/-- Modelled from the spec: MEDUSA.h is absent from the sources.  Maximum
variable count per tile: 16 variables per bit-line word over the data
words. -/
def MAX_VAR : Nat := 128

/-- Modelled from the spec: MEDUSA.h is absent from the sources.  Number of
32-bit output-sample words read back after a converged run. -/
def SMPL_DOUT_WORDS : Nat := 4

/-- Modelled from the spec: MEDUSA.h is absent from the sources.  Tile
selector values; the code passes TILE_RIGHT and TILE_LEFT where a bool is
expected, so they must be 0 and 1. -/
def TILE_RIGHT : Nat := 0

/-- Modelled from the spec: MEDUSA.h is absent from the sources. -/
def TILE_LEFT : Nat := 1

/-- Modelled from the spec: MEDUSA.h is absent from the sources. -/
def TILE_BOTH : Nat := 2

/-- Modelled from the spec: MEDUSA.h is absent from the sources.  Bit
positions inside the 16-bit per-tile half of the global control register
and of the sampling control register.  All lie below bit 16, as required
for the two-halves packing the spec describes. -/
def RUN : Nat := 0

/-- Modelled from the spec: MEDUSA.h is absent from the sources. -/
def RXO_RST : Nat := 1

/-- Modelled from the spec: MEDUSA.h is absent from the sources. -/
def RXO_MODE : Nat := 2

/-- Modelled from the spec: MEDUSA.h is absent from the sources. -/
def SMPL_RSTB : Nat := 0

/-- Modelled from the spec: MEDUSA.h is absent from the sources. -/
def CLK_DIV0 : Nat := 1

/-- Modelled from the spec: MEDUSA.h is absent from the sources. -/
def CLK_DIV1 : Nat := 2

/-- Modelled from the spec: MEDUSA.h is absent from the sources. -/
def ERRB_MODE : Nat := 3

/-- Modelled from the spec: MEDUSA.h is absent from the sources. -/
def SMPL_MODE : Nat := 4

/-- Modelled from the spec: MEDUSA.h is absent from the sources.  Low
16-bit mask used for the two-halves packing of shared shadow registers. -/
def MASK_16B : Nat := 0xFFFF

/-- Modelled from the spec: MEDUSA.h is absent from the sources.  Register
addresses are ASIC-specific fixed configuration; distinct representative
values. -/
def SMPL_CTRL_ADDR : Nat := 0x300

/-- Modelled from the spec: MEDUSA.h is absent from the sources. -/
def HOLD_TIME_RIGHT_ADDR : Nat := 0x304

/-- Modelled from the spec: MEDUSA.h is absent from the sources. -/
def HOLD_TIME_LEFT_ADDR : Nat := 0x308

/-! ## Word-line selection of writeCnf

Translated from MEDUSA.cpp, MEDUSA::writeCnf: the word line of clause
index i is TOP_CLS_START_WL + i when i < HALF_CLS, otherwise
BOT_CLS_START_WL - (i - HALF_CLS).  Within capacity the subtraction never
underflows, so Nat subtraction is faithful to the uint16 arithmetic. -/

/-- Word line chosen by writeCnf for clause index i (from the source). -/
def wlOfClause (i : Nat) : Nat :=
  if i < HALF_CLS then TOP_CLS_START_WL + i
  else BOT_CLS_START_WL - (i - HALF_CLS)

/-- The word-line map as the claim words it: the top/bottom threshold is
half the runtime clause count, not half the capacity.  This definition
follows the wording of the spec and exists only to be compared with
wlOfClause. -/
def wlOfClauseSpec (numCls i : Nat) : Nat :=
  if i < numCls / 2 then TOP_CLS_START_WL + i
  else BOT_CLS_START_WL - (i - numCls / 2)

/-- Claim C1 as stated is false: for a 2-clause problem (well within
capacity), clause index 1 is placed by the code on word line
TOP_CLS_START_WL + 1 (since 1 < HALF_CLS), while the claim, whose threshold
is numCls / 2 = 1, puts it on word line BOT_CLS_START_WL. -/
theorem wlOfClause_ne_spec_counterexample :
    2 ≤ CNF_MAX_CLS ∧ (1 : Nat) < 2 ∧
      wlOfClause 1 ≠ wlOfClauseSpec 2 1 := by
  refine ⟨by decide, by decide, ?_⟩
  decide

/-- Claim C1, amended: the threshold separating top and bottom word lines
is the fixed constant HALF_CLS (half the tile capacity), not numCls / 2.
For every clause index within capacity, index i < HALF_CLS maps to word
line TOP_CLS_START_WL + i, index i with HALF_CLS ≤ i maps to
BOT_CLS_START_WL - (i - HALF_CLS), and no two distinct clause indices
within capacity map to the same word line. -/
theorem wlOfClause_addressing :
    (∀ i, i < CNF_MAX_CLS →
      (i < HALF_CLS → wlOfClause i = TOP_CLS_START_WL + i) ∧
      (HALF_CLS ≤ i → wlOfClause i = BOT_CLS_START_WL - (i - HALF_CLS))) ∧
    (∀ i, i < CNF_MAX_CLS → ∀ j, j < CNF_MAX_CLS → i ≠ j →
      wlOfClause i ≠ wlOfClause j) := by
  constructor
  · intro i hi
    constructor
    · intro h
      simp only [wlOfClause, if_pos h]
    · intro h
      have : ¬ i < HALF_CLS := by omega
      simp only [wlOfClause, if_neg this]
  · intro i hi j hj hne
    simp only [wlOfClause, CNF_MAX_CLS, HALF_CLS, TOP_CLS_START_WL,
      BOT_CLS_START_WL] at *
    split_ifs at * <;> omega

/-- Witness for the amended claim C1 at concrete inputs: clause 3 sits on
the top word line 290 + 3, clause 300 on the bottom word line
253 - (300 - 252), and the two word lines differ. -/
theorem wlOfClause_addressing_witness :
    wlOfClause 3 = TOP_CLS_START_WL + 3 ∧
      wlOfClause 300 = BOT_CLS_START_WL - (300 - HALF_CLS) ∧
      wlOfClause 3 ≠ wlOfClause 300 := by
  refine ⟨(wlOfClause_addressing.1 3 (by decide)).1 (by decide),
    (wlOfClause_addressing.1 300 (by decide)).2 (by decide),
    wlOfClause_addressing.2 3 (by decide) 300 (by decide) (by decide)⟩

/-! ## Bit-line encoding of literals (writeCnf inner loop)

Translated from MEDUSA.cpp, MEDUSA::writeCnf: for each literal (a nonzero
16-bit signed value, modelled as Int), the code computes a word index and a
bit index and ORs a presence bit and, for a negative literal, a polarity
bit into the bit-line word.  The bit-line array is modelled as a function
from word index to 32-bit word value. -/

/-- Word index of a literal: (abs(data) - 1) / 16 (from the source). -/
def litWord (L : Int) : Nat := (L.natAbs - 1) / 16

/-- Bit index of a literal: 2 * ((abs(data) - 1) % 16) (from the source). -/
def litBit (L : Int) : Nat := 2 * ((L.natAbs - 1) % 16)

/-- Sign flag of a literal: data < 0 (from the source). -/
def litNeg (L : Int) : Bool := L < 0

/-- OR the contribution of one literal into its bit-line word:
blData[wrd] |= (1 << (bit+1)) | (neg << bit) (from the source). -/
def encodeLitInto (w : Nat) (L : Int) : Nat :=
  w ||| ((1 <<< (litBit L + 1)) ||| ((litNeg L).toNat <<< litBit L))

/-- Process the literals of one clause in order, accumulating the bit-line
words (from the source while loop over the zero-terminated clause row). -/
def writeClauseBL : List Int → (Nat → Nat) → (Nat → Nat)
  | [], bl => bl
  | L :: rest, bl =>
      writeClauseBL rest
        (fun w => if w = litWord L then encodeLitInto (bl w) L else bl w)

/-- The bit-line words programmed for a clause, starting from all-zero
words (writeCnf zero-initialises blData for every clause). -/
def clauseBL (lits : List Int) : Nat → Nat :=
  writeClauseBL lits (fun _ => 0)

theorem testBit_one_shl (k i : Nat) :
    Nat.testBit (1 <<< k) i = decide (i = k) := by
  rw [Nat.shiftLeft_eq, one_mul, Nat.testBit_two_pow]
  simp [eq_comm]

theorem testBit_toNat_shl (b : Bool) (k i : Nat) :
    Nat.testBit (b.toNat <<< k) i = (b && decide (i = k)) := by
  cases b
  · simp [Nat.shiftLeft_eq]
  · simp [testBit_one_shl k i]

/-- One bit of the bit-line words after a whole clause: a bit is set iff it
was set before, or some literal of the clause contributes it (its presence
bit, or its polarity bit when the literal is negative). -/
theorem testBit_writeClauseBL (lits : List Int) (bl : Nat → Nat)
    (w i : Nat) :
    Nat.testBit (writeClauseBL lits bl w) i =
      (Nat.testBit (bl w) i ||
        lits.any fun L =>
          decide (litWord L = w) &&
            (decide (i = litBit L + 1) || (litNeg L && decide (i = litBit L)))) := by
  induction lits generalizing bl with
  | nil => simp [writeClauseBL]
  | cons L rest ih =>
      rw [writeClauseBL, ih]
      by_cases hw : w = litWord L
      · subst hw
        simp [encodeLitInto, Nat.testBit_lor, testBit_one_shl,
          testBit_toNat_shl, List.any_cons, Bool.or_assoc,
          -Nat.testBit_shiftLeft]
      · have hws : (decide (litWord L = w)) = false := by
          simp [Ne.symm hw]
        simp [if_neg hw, List.any_cons, hws]

/-- Two distinct variables never share the (word, bit) pair. -/
theorem litPair_injective (a b : Int) (ha : a ≠ 0) (hb : b ≠ 0)
    (hw : litWord a = litWord b) (hbit : litBit a = litBit b) :
    a.natAbs = b.natAbs := by
  have ha1 : 1 ≤ a.natAbs := by
    rcases Nat.eq_zero_or_pos a.natAbs with h | h
    · exact absurd (Int.natAbs_eq_zero.mp h) ha
    · exact h
  have hb1 : 1 ≤ b.natAbs := by
    rcases Nat.eq_zero_or_pos b.natAbs with h | h
    · exact absurd (Int.natAbs_eq_zero.mp h) hb
    · exact h
  simp only [litWord, litBit] at hw hbit
  omega

/-- The contribution predicate of a literal with a different variable is
false at the (word, bit) position of a literal M: different variables in
the same word use a different even bit pair, and presence bits are odd
while polarity bits are even, so neither the polarity nor the presence bit
of one variable can land on the polarity bit of another. -/
theorem contrib_false_of_ne (L M : Int) (hL : L ≠ 0) (hM : M ≠ 0)
    (hne : L.natAbs ≠ M.natAbs) :
    (decide (litWord L = litWord M) &&
      (decide (litBit M = litBit L + 1) ||
        (litNeg L && decide (litBit M = litBit L)))) = false := by
  by_cases hw : litWord L = litWord M
  · have hbit : litBit L ≠ litBit M := fun h =>
      hne (litPair_injective L M hL hM hw h)
    have hbit2 : ¬ litBit M = litBit L := fun h => hbit h.symm
    have hodd : ¬ litBit M = litBit L + 1 := by
      simp only [litBit]
      omega
    simp [hw, hodd, hbit2]
  · simp [hw]

/-- Over a clause whose literals carry pairwise distinct variables, the
only contribution landing on the polarity bit of a literal L is the one of
L itself, so the accumulated any-fold reduces to the sign of L. -/
theorem any_contrib_eq_litNeg (lits : List Int) (L : Int) (hmem : L ∈ lits)
    (hnz : ∀ M ∈ lits, M ≠ 0)
    (hdist : lits.Pairwise fun a b => a.natAbs ≠ b.natAbs) :
    (lits.any fun M =>
      decide (litWord M = litWord L) &&
        (decide (litBit L = litBit M + 1) ||
          (litNeg M && decide (litBit L = litBit M)))) = litNeg L := by
  induction lits with
  | nil => cases hmem
  | cons M rest ih =>
      rw [List.any_cons]
      rcases List.mem_cons.mp hmem with rfl | hmem2
      · have hrest : rest.any (fun N =>
            decide (litWord N = litWord L) &&
              (decide (litBit L = litBit N + 1) ||
                (litNeg N && decide (litBit L = litBit N)))) = false := by
          rw [List.any_eq_false]
          intro N hN
          have hne : L.natAbs ≠ N.natAbs :=
            (List.pairwise_cons.mp hdist).1 N hN
          rw [contrib_false_of_ne N L (hnz N (List.mem_cons_of_mem _ hN))
            (hnz L (List.mem_cons_self _ _)) (Ne.symm hne)]
          simp
        have hsucc : ¬ litBit L = litBit L + 1 := by omega
        simp [hrest, hsucc]
      · have hne : M.natAbs ≠ L.natAbs :=
          (List.pairwise_cons.mp hdist).1 L hmem2
        rw [contrib_false_of_ne M L (hnz M (List.mem_cons_self _ _))
          (hnz L hmem) hne]
        simp only [Bool.false_or]
        exact ih hmem2 (fun N hN => hnz N (List.mem_cons_of_mem _ hN))
          (List.pairwise_cons.mp hdist).2

/-- Claim C4: for every literal L of a clause with 1 ≤ abs L ≤ MAX_VAR, the
encoder computes word (abs L - 1) / 16 and bit 2 * ((abs L - 1) % 16); the
programmed bit-line words carry the presence bit (bit + 1) of every
literal, the polarity bit (bit) exactly when the literal is negative (for
clauses over pairwise distinct variables), and the (word, bit) pair is
injective in the variable, so sign and presence of L are reconstructible
from the programmed word. -/
theorem clause_encoding_roundtrip (lits : List Int)
    (hb : ∀ L ∈ lits, 1 ≤ L.natAbs ∧ L.natAbs ≤ MAX_VAR)
    (hdist : lits.Pairwise fun a b => a.natAbs ≠ b.natAbs) :
    (∀ L ∈ lits, litWord L = (L.natAbs - 1) / 16 ∧
      litBit L = 2 * ((L.natAbs - 1) % 16)) ∧
    (∀ L ∈ lits,
      Nat.testBit (clauseBL lits (litWord L)) (litBit L + 1) = true) ∧
    (∀ L ∈ lits,
      Nat.testBit (clauseBL lits (litWord L)) (litBit L) = litNeg L) ∧
    (∀ L M : Int, L ≠ 0 → M ≠ 0 → litWord L = litWord M →
      litBit L = litBit M → L.natAbs = M.natAbs) := by
  have hnz : ∀ M ∈ lits, M ≠ 0 := by
    intro M hM
    exact Int.natAbs_pos.mp (hb M hM).1
  refine ⟨fun L _ => ⟨rfl, rfl⟩, ?_, ?_, litPair_injective⟩
  · intro L hmem
    rw [clauseBL, testBit_writeClauseBL]
    have : (lits.any fun M =>
        decide (litWord M = litWord L) &&
          (decide (litBit L + 1 = litBit M + 1) ||
            (litNeg M && decide (litBit L + 1 = litBit M)))) = true := by
      rw [List.any_eq_true]
      exact ⟨L, hmem, by simp⟩
    simpa using this
  · intro L hmem
    rw [clauseBL, testBit_writeClauseBL]
    have := any_contrib_eq_litNeg lits L hmem hnz hdist
    simpa using this

/-- Witness for claim C4 at the concrete clause (3, -7, 20): presence bits
are set, the polarity bit is set exactly for the negative literal, and the
pair injectivity is applied at the literals 3 and -7. -/
theorem clause_encoding_roundtrip_witness :
    Nat.testBit (clauseBL [3, -7, 20] (litWord 3)) (litBit 3 + 1) = true ∧
      Nat.testBit (clauseBL [3, -7, 20] (litWord (-7))) (litBit (-7)) = true ∧
      Nat.testBit (clauseBL [3, -7, 20] (litWord 3)) (litBit 3) = false := by
  have h := clause_encoding_roundtrip [3, -7, 20]
    (by intro L hL; fin_cases hL <;> simp [MAX_VAR])
    (by simp)
  refine ⟨h.2.1 3 (by simp), ?_, ?_⟩
  · rw [h.2.2.1 (-7) (by simp)]
    rfl
  · rw [h.2.2.1 3 (by simp)]
    rfl

/-! ## setupSampling

Translated from MEDUSA.cpp, MEDUSA::setupSampling.  The function validates
the clock divider and the mode, builds a configuration word, and updates
the tile half of the shared sampling-control shadow register, emitting a
fixed sequence of register writes.  The serial warning prints are modelled
by a warning counter. -/

/-- Validated clock divider: values above 3 are clamped to the maximum
value 0b11 (from the source). -/
def validatedClkDiv (clkDiv : Nat) : Nat :=
  if clkDiv > 3 then 3 else clkDiv

/-- Validated mode: values above 3 are replaced by the default value 0b00
(from the source). -/
def validatedMode (mode : Nat) : Nat :=
  if mode > 3 then 0 else mode

/-- Number of warning lines printed during parameter validation (from the
source). -/
def samplingWarnings (clkDiv mode : Nat) : Nat :=
  (if clkDiv > 3 then 1 else 0) + (if mode > 3 then 1 else 0)

/-- The configuration word built from the validated parameters (from the
source): reset bit, sampling-mode bit, error-bit-mode bit and the two
clock-divider bits. -/
def samplingConfiguration (clkDiv mode : Nat) : Nat :=
  let c := validatedClkDiv clkDiv
  let m := validatedMode mode
  let clkDiv0 : Bool := c &&& 0b01 ≠ 0
  let clkDiv1 : Bool := c &&& 0b10 ≠ 0
  let errbMode : Bool := m &&& 0b01 ≠ 0
  let smplMode : Bool := m &&& 0b10 ≠ 0
  (1 <<< SMPL_RSTB) ||| (smplMode.toNat <<< SMPL_MODE) |||
    (errbMode.toNat <<< ERRB_MODE) ||| (clkDiv1.toNat <<< CLK_DIV1) |||
    (clkDiv0.toNat <<< CLK_DIV0)

/-- Fixed hold time written per tile (from the source). -/
def holdTime : Nat := 100

/-- Bitwise complement within a 32-bit word, the meaning of the C tilde
operator on a uint32 operand. -/
def compl32 (x : Nat) : Nat := 0xFFFFFFFF ^^^ x

/-- The setupSampling effect on the sampling-control shadow register and
the emitted (address, data) register writes, per tile (from the source).
An invalid tile selector performs no write. -/
def setupSamplingTrace (tile sampleReg clkDiv mode : Nat) :
    Nat × List (Nat × Nat) :=
  let configuration := samplingConfiguration clkDiv mode
  if tile = TILE_RIGHT then
    let s1 := sampleReg &&& compl32 (1 <<< SMPL_RSTB)
    let s2 := (s1 &&& (MASK_16B <<< 16)) ||| configuration
    (s2, [(SMPL_CTRL_ADDR, s1), (SMPL_CTRL_ADDR, s2),
      (HOLD_TIME_RIGHT_ADDR, holdTime)])
  else if tile = TILE_LEFT then
    let s1 := sampleReg &&& compl32 ((1 <<< SMPL_RSTB) <<< 16)
    let s2 := (s1 &&& MASK_16B) ||| (configuration <<< 16)
    (s2, [(SMPL_CTRL_ADDR, s1), (SMPL_CTRL_ADDR, s2),
      (HOLD_TIME_LEFT_ADDR, holdTime)])
  else if tile = TILE_BOTH then
    let s1 := sampleReg &&&
      compl32 ((1 <<< SMPL_RSTB) ||| ((1 <<< SMPL_RSTB) <<< 16))
    let s2 := (configuration <<< 16) ||| configuration
    (s2, [(SMPL_CTRL_ADDR, s1), (SMPL_CTRL_ADDR, s2),
      (HOLD_TIME_RIGHT_ADDR, holdTime), (HOLD_TIME_LEFT_ADDR, holdTime)])
  else (sampleReg, [])

/-- Claim C7 as stated is false: an out-of-range mode is not clamped to the
maximum valid value 0b11.  With mode 4 the operation behaves exactly as
with the default mode 0, and differently from mode 3. -/
theorem setupSampling_mode_counterexample :
    validatedMode 4 = 0 ∧
      setupSamplingTrace TILE_RIGHT 0 0 4 = setupSamplingTrace TILE_RIGHT 0 0 0 ∧
      setupSamplingTrace TILE_RIGHT 0 0 4 ≠ setupSamplingTrace TILE_RIGHT 0 0 3 := by
  refine ⟨rfl, rfl, ?_⟩
  decide

/-- Claim C7, amended: an out-of-range clock divider is clamped to the
maximum valid value 0b11 and an out-of-range mode is replaced by the
default value 0b00, each with a logged warning; in both cases the operation
behaves exactly as with the validated parameters and still completes its
register writes normally (the write sequence is nonempty for every valid
tile selector), never hard-failing or skipping the configuration. -/
theorem setupSampling_clamps (tile sampleReg clkDiv mode : Nat)
    (htile : tile = TILE_RIGHT ∨ tile = TILE_LEFT ∨ tile = TILE_BOTH) :
    (clkDiv > 3 → validatedClkDiv clkDiv = 3 ∧
      1 ≤ samplingWarnings clkDiv mode) ∧
    (mode > 3 → validatedMode mode = 0 ∧
      1 ≤ samplingWarnings clkDiv mode) ∧
    setupSamplingTrace tile sampleReg clkDiv mode =
      setupSamplingTrace tile sampleReg (validatedClkDiv clkDiv)
        (validatedMode mode) ∧
    (setupSamplingTrace tile sampleReg clkDiv mode).2 ≠ [] := by
  have hconf : samplingConfiguration clkDiv mode =
      samplingConfiguration (validatedClkDiv clkDiv) (validatedMode mode) := by
    simp only [samplingConfiguration, validatedClkDiv, validatedMode]
    split_ifs <;> simp_all
  refine ⟨?_, ?_, ?_, ?_⟩
  · intro h
    simp [validatedClkDiv, samplingWarnings, h]
  · intro h
    constructor
    · simp [validatedMode, h]
    · simp only [samplingWarnings]
      split_ifs <;> omega
  · simp only [setupSamplingTrace, hconf]
  · rcases htile with h | h | h <;>
      simp [setupSamplingTrace, h, TILE_RIGHT, TILE_LEFT, TILE_BOTH]

/-- Witness for the amended claim C7: tile RIGHT with clock divider 5 and
mode 9, both out of range. -/
theorem setupSampling_clamps_witness :
    validatedClkDiv 5 = 3 ∧ validatedMode 9 = 0 ∧
      setupSamplingTrace TILE_RIGHT 7 5 9 =
        setupSamplingTrace TILE_RIGHT 7 (validatedClkDiv 5) (validatedMode 9) ∧
      (setupSamplingTrace TILE_RIGHT 7 5 9).2 ≠ [] := by
  have h := setupSampling_clamps TILE_RIGHT 7 5 9 (Or.inl rfl)
  exact ⟨(h.1 (by decide)).1, (h.2.1 (by decide)).1, h.2.2.1, h.2.2.2⟩

/-! ## setupRXOs effect on the global control shadow register

Translated from MEDUSA.cpp, MEDUSA::setupRXOs: per tile the function
asserts and then deasserts the relaxation-oscillator reset bit of the
tile half of the global control shadow register; in dual-tile mode it also
asserts the coupling bits.  Only the shadow-register transformation is
modelled here (the bit-line and word-line writes do not touch the shadow
registers). -/

/-- Final value of the global control shadow register after setupRXOs
(from the source). -/
def setupRXOsGlobal (tile globalReg : Nat) : Nat :=
  if tile = TILE_RIGHT then
    (globalReg ||| (1 <<< RXO_RST)) &&& compl32 (1 <<< RXO_RST)
  else if tile = TILE_LEFT then
    (globalReg ||| ((1 <<< RXO_RST) <<< 16)) &&&
      compl32 ((1 <<< RXO_RST) <<< 16)
  else if tile = TILE_BOTH then
    ((globalReg ||| ((1 <<< RXO_RST) ||| ((1 <<< RXO_RST) <<< 16))) &&&
        compl32 (1 <<< RXO_RST) &&& compl32 ((1 <<< RXO_RST) <<< 16)) |||
      ((1 <<< RXO_MODE) ||| ((1 <<< RXO_MODE) <<< 16))
  else globalReg

theorem testBit_compl32 (x i : Nat) (hi : i < 32) :
    Nat.testBit (compl32 x) i = ! Nat.testBit x i := by
  have h32 : (0xFFFFFFFF : Nat) = 2 ^ 32 - 1 := by norm_num
  rw [compl32, Nat.testBit_xor, h32, Nat.testBit_two_pow_sub_one]
  simp [hi]

theorem testBit_small_false (x i : Nat) (h : x < 2 ^ i) :
    Nat.testBit x i = false :=
  Nat.testBit_eq_false_of_lt h

/-- The configuration word stays inside the low five bits. -/
theorem samplingConfiguration_lt (clkDiv mode : Nat) :
    samplingConfiguration clkDiv mode < 32 := by
  simp only [samplingConfiguration, SMPL_RSTB, SMPL_MODE, ERRB_MODE,
    CLK_DIV1, CLK_DIV0]
  have h1 : ∀ b : Bool, ∀ k : Nat, k ≤ 4 → b.toNat <<< k < 32 := by
    intro b k hk
    have hpow : 2 ^ k < 32 :=
      calc 2 ^ k ≤ 2 ^ 4 := Nat.pow_le_pow_right (by omega) hk
        _ < 32 := by omega
    cases b <;> simp [Nat.shiftLeft_eq, hpow]
  have hor : ∀ a b : Nat, a < 32 → b < 32 → a ||| b < 32 := by
    intro a b ha hb
    have := Nat.or_lt_two_pow (n := 5) ha hb
    simpa using this
  exact hor _ _ (hor _ _ (hor _ _ (hor _ _ (by decide)
    (h1 _ _ (by omega))) (h1 _ _ (by omega))) (h1 _ _ (by omega)))
    (h1 _ _ (by omega))

/-- Claim C9: single-tile operations never modify the other tile half of
the shared shadow registers.  For tile RIGHT, setupRXOs leaves bits 16
to 31 of the global control shadow register unchanged and setupSampling
leaves bits 16 to 31 of the sampling-control shadow register unchanged;
symmetrically, for tile LEFT the bits 0 to 15 of each shadow register are
unchanged. -/
theorem single_tile_frame_effect (globalReg sampleReg clkDiv mode : Nat) :
    (∀ i, 16 ≤ i → i < 32 →
      Nat.testBit (setupRXOsGlobal TILE_RIGHT globalReg) i =
        Nat.testBit globalReg i) ∧
    (∀ i, 16 ≤ i → i < 32 →
      Nat.testBit (setupSamplingTrace TILE_RIGHT sampleReg clkDiv mode).1 i =
        Nat.testBit sampleReg i) ∧
    (∀ i, i < 16 →
      Nat.testBit (setupRXOsGlobal TILE_LEFT globalReg) i =
        Nat.testBit globalReg i) ∧
    (∀ i, i < 16 →
      Nat.testBit (setupSamplingTrace TILE_LEFT sampleReg clkDiv mode).1 i =
        Nat.testBit sampleReg i) := by
  refine ⟨?_, ?_, ?_, ?_⟩
  · intro i h16 h32
    have hb : Nat.testBit (1 <<< RXO_RST) i = false := by
      rw [testBit_one_shl]
      simp only [RXO_RST, decide_eq_false_iff_not]
      omega
    simp [setupRXOsGlobal, TILE_RIGHT, Nat.testBit_land, Nat.testBit_lor,
      testBit_compl32 _ i h32, hb]
  · intro i h16 h32
    have hb : Nat.testBit (1 <<< SMPL_RSTB) i = false := by
      rw [testBit_one_shl]
      simp only [SMPL_RSTB, decide_eq_false_iff_not]
      omega
    have hmask : Nat.testBit (MASK_16B <<< 16) i = true := by
      rw [Nat.testBit_shiftLeft]
      have : (MASK_16B : Nat) = 2 ^ 16 - 1 := by decide
      rw [this, Nat.testBit_two_pow_sub_one]
      simp
      omega
    have hcfg : Nat.testBit (samplingConfiguration clkDiv mode) i = false := by
      apply testBit_small_false
      calc samplingConfiguration clkDiv mode < 32 :=
            samplingConfiguration_lt clkDiv mode
        _ ≤ 2 ^ i := by
            calc (32 : Nat) = 2 ^ 5 := by norm_num
              _ ≤ 2 ^ i := Nat.pow_le_pow_right (by omega) (by omega)
    simp [setupSamplingTrace, TILE_RIGHT, Nat.testBit_land,
      Nat.testBit_lor, testBit_compl32 _ i h32, hb, hmask, hcfg]
  · intro i h16
    have hb : Nat.testBit ((1 <<< RXO_RST) <<< 16) i = false := by
      rw [← Nat.shiftLeft_add, testBit_one_shl]
      simp only [RXO_RST, decide_eq_false_iff_not]
      omega
    simp [setupRXOsGlobal, TILE_LEFT, TILE_RIGHT, Nat.testBit_land,
      Nat.testBit_lor, testBit_compl32 _ i (by omega), hb]
  · intro i h16
    have hb : Nat.testBit ((1 <<< SMPL_RSTB) <<< 16) i = false := by
      rw [← Nat.shiftLeft_add, testBit_one_shl]
      simp only [SMPL_RSTB, decide_eq_false_iff_not]
      omega
    have hmask : Nat.testBit MASK_16B i = true := by
      have : (MASK_16B : Nat) = 2 ^ 16 - 1 := by decide
      rw [this, Nat.testBit_two_pow_sub_one]
      simp [h16]
    have hcfg : Nat.testBit (samplingConfiguration clkDiv mode <<< 16) i
        = false := by
      rw [Nat.testBit_shiftLeft]
      simp
      omega
    simp [setupSamplingTrace, TILE_LEFT, TILE_RIGHT, Nat.testBit_land,
      Nat.testBit_lor, testBit_compl32 _ i (by omega), hb, hmask, hcfg]

/-- Witness for claim C9 at a concrete shadow value and bit: the shadow
0x5A5AF0F3 keeps bit 17 across a RIGHT setupRXOs and a RIGHT
setupSampling, and bit 3 across the LEFT counterparts. -/
theorem single_tile_frame_effect_witness :
    Nat.testBit (setupRXOsGlobal TILE_RIGHT 0x5A5AF0F3) 17 =
        Nat.testBit 0x5A5AF0F3 17 ∧
      Nat.testBit (setupSamplingTrace TILE_RIGHT 0x5A5AF0F3 3 0).1 17 =
        Nat.testBit 0x5A5AF0F3 17 ∧
      Nat.testBit (setupRXOsGlobal TILE_LEFT 0x5A5AF0F3) 3 =
        Nat.testBit 0x5A5AF0F3 3 ∧
      Nat.testBit (setupSamplingTrace TILE_LEFT 0x5A5AF0F3 3 0).1 3 =
        Nat.testBit 0x5A5AF0F3 3 := by
  have h := single_tile_frame_effect 0x5A5AF0F3 0x5A5AF0F3 3 0
  exact ⟨h.1 17 (by decide) (by decide), h.2.1 17 (by decide) (by decide),
    h.2.2.1 3 (by decide), h.2.2.2 3 (by decide)⟩

/-! ## Solver polling loops

Translated from MEDUSA.cpp, MEDUSA::runSolverSingle and
MEDUSA::runSolverCoupled.  Hardware register reads are modelled as an
explicit trace indexed by the poll iteration.  The float computation
converting the elapsed-time register to microseconds is modelled exactly
over the rationals. -/

/-- Timeout of a solver run in microseconds (from the source). -/
def timeout : Nat := 10000

/-- Sampling tick rate divisor of the elapsed-time conversion: 895E3 * 1024
/ 8, in Hz (from the source). -/
def tickRate : ℚ := 895000 * 1024 / 8

/-- Elapsed-time register value converted to microseconds:
readReg(SMPL_TIME_ADDR) / (895E3 * 1024 / 8) / 1E-6 (from the source). -/
def ticksToMicros (t : Nat) : ℚ := (t : ℚ) / tickRate / (1 / 1000000)

/-- The stale test of the polling loops: the converted elapsed time
exceeds the timeout (from the source). -/
def timeExceeds (t : Nat) : Bool := decide (ticksToMicros t > (timeout : ℚ))

/-- The stale test in integer form: the elapsed-time register exceeds
1145600 ticks (10000 microseconds at 114.56 ticks per microsecond). -/
theorem timeExceeds_eq (t : Nat) : timeExceeds t = decide (1145600 < t) := by
  rw [timeExceeds, decide_eq_decide, gt_iff_lt, ticksToMicros, tickRate,
    div_div, lt_div_iff₀ (by norm_num)]
  rw [show ((895000 * 1024 / 8 : ℚ) * (1 / 1000000)) = 2864 / 25 by norm_num]
  rw [show ((timeout : Nat) : ℚ) = 10000 by norm_num [timeout]]
  rw [show ((10000 : ℚ) * (2864 / 25)) = ((1145600 : Nat) : ℚ) by norm_num]
  exact ⟨fun h => Nat.cast_lt.mp h, fun h => Nat.cast_lt.mpr h⟩

/-- Register reads of one poll iteration of the single-tile loop. -/
structure SingleReads where
  done : Nat
  time : Nat

/-- Classification of one poll iteration of runSolverSingle (from the
source): with the done flag clear, or set but with the elapsed time beyond
the timeout, the iteration is stale; otherwise it converged. -/
inductive PollClass where
  | stale
  | converged
deriving DecidableEq

/-- Classify one iteration of the single-tile polling loop (from the
source). -/
def classifySingle (r : SingleReads) : PollClass :=
  if r.done ≠ 0 then
    if timeExceeds r.time then .stale else .converged
  else .stale

/-- Side effects of the stale branch of either polling loop (from the
source): re-arm the relaxation oscillators, re-arm the sampling system,
re-assert the Run bit of the global control register. -/
inductive ArmAction where
  | rearmRXOs
  | rearmSampling
  | assertRunBit
deriving DecidableEq

/-- The action sequence of a stale iteration (from the source). -/
def staleActions : List ArmAction := [.rearmRXOs, .rearmSampling, .assertRunBit]

/-- Actions performed by one poll iteration, by classification (from the
source): a stale iteration re-arms and re-asserts the Run bit, a converged
iteration only leaves the loop. -/
def iterationActions : PollClass → List ArmAction
  | .stale => staleActions
  | .converged => []

/-- Attempt counter after one poll iteration (from the source): stale
iterations increment it by one, a converged iteration leaves it
unchanged. -/
def stepAttempts (c : PollClass) (numAttempts : Nat) : Nat :=
  match c with
  | .stale => numAttempts + 1
  | .converged => numAttempts

/-- The while (!solved) polling loop of runSolverSingle, as a fuel-indexed
recursion: argument k is the poll iteration index, numAttempts the attempt
counter.  On convergence it returns the iteration index and the attempt
counter; none means the loop is still running after the given number of
iterations. -/
def loopSingle (trace : Nat → SingleReads) :
    Nat → Nat → Nat → Option (Nat × Nat)
  | 0, _, _ => none
  | fuel + 1, k, numAttempts =>
      match classifySingle (trace k) with
      | .converged => some (k, numAttempts)
      | .stale => loopSingle trace fuel (k + 1) (numAttempts + 1)

/-- Register reads of one poll iteration of the coupled loop. -/
structure CoupledReads where
  doneR : Nat
  doneL : Nat
  timeR : Nat
  timeL : Nat

/-- The coupled done status: bitwise AND of the two tiles' done registers
(from the source). -/
def coupledStatus (r : CoupledReads) : Nat := r.doneR &&& r.doneL

/-- The elapsed-time register the coupled loop converts for its stale
test: the larger of the two tiles' reads (from the source: the left value
if it is greater than the right one, else the right value). -/
def coupledTimeSel (r : CoupledReads) : Nat :=
  if r.timeL > r.timeR then r.timeL else r.timeR

/-- Exit state of the coupled polling loop. -/
structure CoupledExit where
  solved : Bool
  numAttempts : Nat
  exitIndex : Nat
deriving DecidableEq

/-- The while (status == 0) polling loop of runSolverCoupled, as a
fuel-indexed recursion (from the source).  The loop guard tests the status
word, not the solved flag: any iteration whose combined done status is
nonzero leaves the loop, with solved true only when the elapsed time was
within the timeout; a stale-with-done-set iteration increments the attempt
counter, performs the re-arm actions, and then still leaves the loop
because the guard sees a nonzero status. -/
def loopCoupled (trace : Nat → CoupledReads) :
    Nat → Nat → Nat → Option CoupledExit
  | 0, _, _ => none
  | fuel + 1, k, numAttempts =>
      let r := trace k
      if coupledStatus r ≠ 0 then
        if timeExceeds (coupledTimeSel r) then
          some ⟨false, numAttempts + 1, k⟩
        else
          some ⟨true, numAttempts, k⟩
      else
        loopCoupled trace fuel (k + 1) (numAttempts + 1)

/-- Classification of one iteration of the coupled loop, mirroring
classifySingle over the combined status and the selected elapsed time
(from the source). -/
def classifyCoupled (r : CoupledReads) : PollClass :=
  if coupledStatus r ≠ 0 then
    if timeExceeds (coupledTimeSel r) then .stale else .converged
  else .stale

/-! ## Output-tile selection at the end of a coupled run -/

/-- A tile of the dual-tile chip. -/
inductive Tile where
  | right
  | left
deriving DecidableEq

/-- The tile whose output-sample registers runSolverCoupled reads after
the polling loop (from the source): tile RIGHT when its elapsed-time
register read is strictly greater than the LEFT one, tile LEFT
otherwise. -/
def coupledReadTile (timeRight timeLeft : Nat) : Tile :=
  if timeRight > timeLeft then .right else .left

/-- The elapsed time recorded in the result record (from the source): the
elapsed-time register of the selected tile. -/
def coupledRecordedTime (timeRight timeLeft : Nat) : Nat :=
  if timeRight > timeLeft then timeRight else timeLeft

/-- The tile-selection rule as the claim words it: read LEFT when the left
time is strictly greater, RIGHT otherwise, the tie included.  This
definition follows the wording of the spec and exists only to be compared
with coupledReadTile. -/
def coupledReadTileSpec (timeRight timeLeft : Nat) : Tile :=
  if timeLeft > timeRight then .left else .right

/-- Claim C3 as stated is false at a tie: with both elapsed-time registers
equal to 100, the code reads tile LEFT, while the claim (tie goes to
RIGHT) reads tile RIGHT. -/
theorem coupledReadTile_tie_counterexample :
    coupledReadTile 100 100 = .left ∧ coupledReadTileSpec 100 100 = .right ∧
      coupledReadTile 100 100 ≠ coupledReadTileSpec 100 100 := by
  refine ⟨rfl, rfl, ?_⟩
  decide

/-- Claim C3, amended: at convergence of a coupled run, the output-sample
registers are read from tile RIGHT exactly when the right elapsed time is
strictly greater than the left one, and from tile LEFT otherwise, the tie
included; the recorded elapsed time is the selected tile's register
value. -/
theorem coupledReadTile_rule (timeRight timeLeft : Nat) :
    (timeLeft > timeRight →
      coupledReadTile timeRight timeLeft = .left ∧
        coupledRecordedTime timeRight timeLeft = timeLeft) ∧
    (timeRight > timeLeft →
      coupledReadTile timeRight timeLeft = .right ∧
        coupledRecordedTime timeRight timeLeft = timeRight) ∧
    (timeRight = timeLeft →
      coupledReadTile timeRight timeLeft = .left ∧
        coupledRecordedTime timeRight timeLeft = timeLeft) := by
  refine ⟨fun h => ?_, fun h => ?_, fun h => ?_⟩
  · have : ¬ timeRight > timeLeft := by omega
    simp [coupledReadTile, coupledRecordedTime, this]
  · simp [coupledReadTile, coupledRecordedTime, h]
  · have : ¬ timeRight > timeLeft := by omega
    simp [coupledReadTile, coupledRecordedTime, this, h]

/-- Witness for the amended claim C3, the scenario table of the spec: with
times (right 100, left 50) the RIGHT tile is read, with (right 50,
left 100) the LEFT tile is read, each recording its own time. -/
theorem coupledReadTile_rule_witness :
    (coupledReadTile 100 50 = .right ∧ coupledRecordedTime 100 50 = 100) ∧
      (coupledReadTile 50 100 = .left ∧ coupledRecordedTime 50 100 = 100) :=
  ⟨(coupledReadTile_rule 100 50).2.1 (by decide),
    (coupledReadTile_rule 50 100).1 (by decide)⟩

/-! ## Claim C2: stale handling in the two polling loops -/

/-- Claim C2 fails on runSolverCoupled, whose loop guard tests the status
word rather than the solved flag: on a first poll where both done
registers read 1 but the elapsed-time registers read 2000000 ticks
(about 17458 microseconds, beyond the 10000 microsecond timeout), the
iteration is classified stale and the attempt counter is incremented, yet
the loop exits at iteration 0 with solved false instead of continuing to
poll.  The single-tile loop, by contrast, keeps polling after an
identical first stale iteration and converges on the next one. -/
theorem coupled_stale_exits_loop :
    classifyCoupled ⟨1, 1, 2000000, 2000000⟩ = .stale ∧
      loopCoupled (fun _ => ⟨1, 1, 2000000, 2000000⟩) 5 0 0 =
        some ⟨false, 1, 0⟩ ∧
      classifySingle ⟨1, 2000000⟩ = .stale ∧
      loopSingle (fun n => if n = 0 then ⟨1, 2000000⟩ else ⟨1, 100⟩) 5 0 0 =
        some (1, 1) := by
  have h1 : timeExceeds 2000000 = true := by
    rw [timeExceeds_eq]
    decide
  have h2 : timeExceeds 100 = false := by
    rw [timeExceeds_eq]
    decide
  refine ⟨?_, ?_, ?_, ?_⟩
  · simp [classifyCoupled, coupledStatus, coupledTimeSel, h1]
  · simp [loopCoupled, coupledStatus, coupledTimeSel, h1]
  · simp [classifySingle, h1]
  · simp [loopSingle, classifySingle, h1, h2]

/-! ## Claim C5: hardware non-response spins the single-tile loop -/

/-- Claim C5: when every read of the sample-done status register returns
0, the polling loop of runSolverSingle never terminates within any number
of iterations and never returns to the caller; every iteration is
classified stale, and its body performs exactly the re-arm actions and the
Run-bit re-assertion. -/
theorem singleLoop_nonresponse (trace : Nat → SingleReads)
    (h : ∀ n, (trace n).done = 0) :
    (∀ fuel k numAttempts, loopSingle trace fuel k numAttempts = none) ∧
    (∀ n, classifySingle (trace n) = .stale ∧
      iterationActions (classifySingle (trace n)) = staleActions) := by
  have hc : ∀ n, classifySingle (trace n) = .stale := by
    intro n
    simp [classifySingle, h n]
  constructor
  · intro fuel
    induction fuel with
    | zero => intro k a; rfl
    | succ m ih =>
        intro k a
        rw [loopSingle, hc k]
        exact ih (k + 1) (a + 1)
  · intro n
    exact ⟨hc n, by rw [hc n]; rfl⟩

/-- Witness for claim C5 at the all-zero read trace and fuel 5. -/
theorem singleLoop_nonresponse_witness :
    loopSingle (fun _ => ⟨0, 0⟩) 5 0 0 = none ∧
      classifySingle ⟨0, 0⟩ = PollClass.stale :=
  ⟨(singleLoop_nonresponse (fun _ => ⟨0, 0⟩) (fun _ => rfl)).1 5 0 0,
    ((singleLoop_nonresponse (fun _ => ⟨0, 0⟩) (fun _ => rfl)).2 0).1⟩

/-! ## Claim C6: monotone attempt counting -/

/-- Claim C6: across the polling loop of either solver, the attempt
counter is non-decreasing, increases by exactly 1 on each iteration
classified stale or non-converged, and is unchanged by a converged
iteration.  Parts: single-tile stale step, single-tile converged exit,
single-tile monotonicity, coupled not-done step, coupled stale-done exit,
coupled converged exit, coupled monotonicity. -/
theorem attempts_monotone :
    (∀ (trace : Nat → SingleReads) (fuel k a : Nat),
      classifySingle (trace k) = .stale →
        loopSingle trace (fuel + 1) k a = loopSingle trace fuel (k + 1) (a + 1)) ∧
    (∀ (trace : Nat → SingleReads) (fuel k a : Nat),
      classifySingle (trace k) = .converged →
        loopSingle trace (fuel + 1) k a = some (k, a)) ∧
    (∀ (trace : Nat → SingleReads) (fuel k a k2 a2 : Nat),
      loopSingle trace fuel k a = some (k2, a2) → a ≤ a2) ∧
    (∀ (trace : Nat → CoupledReads) (fuel k a : Nat),
      coupledStatus (trace k) = 0 →
        loopCoupled trace (fuel + 1) k a = loopCoupled trace fuel (k + 1) (a + 1)) ∧
    (∀ (trace : Nat → CoupledReads) (fuel k a : Nat),
      coupledStatus (trace k) ≠ 0 → timeExceeds (coupledTimeSel (trace k)) = true →
        loopCoupled trace (fuel + 1) k a = some ⟨false, a + 1, k⟩) ∧
    (∀ (trace : Nat → CoupledReads) (fuel k a : Nat),
      coupledStatus (trace k) ≠ 0 → timeExceeds (coupledTimeSel (trace k)) = false →
        loopCoupled trace (fuel + 1) k a = some ⟨true, a, k⟩) ∧
    (∀ (trace : Nat → CoupledReads) (fuel k a : Nat) (e : CoupledExit),
      loopCoupled trace fuel k a = some e → a ≤ e.numAttempts) := by
  refine ⟨?_, ?_, ?_, ?_, ?_, ?_, ?_⟩
  · intro trace fuel k a h
    rw [loopSingle, h]
  · intro trace fuel k a h
    rw [loopSingle, h]
  · intro trace fuel
    induction fuel with
    | zero => intro k a k2 a2 h; cases h
    | succ m ih =>
        intro k a k2 a2 h
        rw [loopSingle] at h
        cases hc : classifySingle (trace k) with
        | converged =>
            rw [hc] at h
            cases h
            exact Nat.le_refl a
        | stale =>
            rw [hc] at h
            exact Nat.le_of_succ_le (ih (k + 1) (a + 1) k2 a2 h)
  · intro trace fuel k a h
    simp [loopCoupled, h]
  · intro trace fuel k a h ht
    simp [loopCoupled, h, ht]
  · intro trace fuel k a h ht
    simp [loopCoupled, h, ht]
  · intro trace fuel
    induction fuel with
    | zero => intro k a e h; cases h
    | succ m ih =>
        intro k a e h
        rw [loopCoupled] at h
        by_cases hs : coupledStatus (trace k) ≠ 0
        · rw [if_pos hs] at h
          by_cases ht : timeExceeds (coupledTimeSel (trace k)) = true
          · rw [if_pos ht] at h
            cases h
            exact Nat.le_succ a
          · rw [if_neg ht] at h
            cases h
            exact Nat.le_refl a
        · rw [if_neg hs] at h
          exact Nat.le_of_succ_le (ih (k + 1) (a + 1) e h)

/-- Witness for claim C6 at concrete traces: a stale single iteration
increments the counter by exactly 1 and a converged one exits with the
counter unchanged; a stale-done coupled iteration exits with the counter
incremented by exactly 1, a converged one with it unchanged; the returned
counters dominate the starting value 4. -/
theorem attempts_monotone_witness :
    loopSingle (fun _ => ⟨0, 0⟩) 3 0 4 = loopSingle (fun _ => ⟨0, 0⟩) 2 1 5 ∧
      loopSingle (fun _ => ⟨1, 100⟩) 3 0 4 = some (0, 4) ∧
      (4 : Nat) ≤ 4 ∧
      loopCoupled (fun _ => ⟨0, 1, 0, 0⟩) 3 0 4 =
        loopCoupled (fun _ => ⟨0, 1, 0, 0⟩) 2 1 5 ∧
      loopCoupled (fun _ => ⟨1, 1, 2000000, 2000000⟩) 3 0 4 =
        some ⟨false, 5, 0⟩ ∧
      loopCoupled (fun _ => ⟨1, 1, 100, 100⟩) 3 0 4 = some ⟨true, 4, 0⟩ ∧
      (4 : Nat) ≤ (CoupledExit.mk true 4 0).numAttempts := by
  have hex : timeExceeds 2000000 = true := by
    rw [timeExceeds_eq]; decide
  have hok : timeExceeds 100 = false := by
    rw [timeExceeds_eq]; decide
  have h0 : timeExceeds 0 = false := by
    rw [timeExceeds_eq]; decide
  refine ⟨attempts_monotone.1 (fun _ => ⟨0, 0⟩) 2 0 4 (by simp [classifySingle]),
    attempts_monotone.2.1 (fun _ => ⟨1, 100⟩) 2 0 4
      (by simp [classifySingle, hok]),
    attempts_monotone.2.2.1 (fun _ => ⟨1, 100⟩) 3 0 4 0 4
      (by simp [loopSingle, classifySingle, hok]),
    attempts_monotone.2.2.2.1 (fun _ => ⟨0, 1, 0, 0⟩) 2 0 4
      (by simp [coupledStatus]),
    attempts_monotone.2.2.2.2.1 (fun _ => ⟨1, 1, 2000000, 2000000⟩) 2 0 4
      (by simp [coupledStatus]) (by simpa [coupledTimeSel] using hex),
    attempts_monotone.2.2.2.2.2.1 (fun _ => ⟨1, 1, 100, 100⟩) 2 0 4
      (by simp [coupledStatus]) (by simpa [coupledTimeSel] using hok),
    attempts_monotone.2.2.2.2.2.2 (fun _ => ⟨1, 1, 100, 100⟩) 3 0 4
      ⟨true, 4, 0⟩ (by simp [loopCoupled, coupledStatus, coupledTimeSel, hok])⟩

/-! ## Result-record emission (runSolverSingle, runSolverCoupled)

The file-system collaborator is modelled as the sequence of file
operations the solver issues: one deletion of the stale results file, then
one record append per run. -/

/-- A file operation issued by a solver run batch. -/
inductive FileOp where
  | deleteResults
  | append (record : List Nat)
deriving DecidableEq

/-- Environment of one single-tile run: the polling-read trace, the
post-loop elapsed-time register read, and the output-sample register
reads. -/
structure SingleRunEnv where
  poll : Nat → SingleReads
  timeReg : Nat
  dout : Nat → Nat

/-- The result record of one single-tile run (from the source): the
SMPL_DOUT_WORDS output-sample words, then the elapsed-time register, then
the attempt counter. -/
def singleRunRecord (env : SingleRunEnv) (numAttempts : Nat) : List Nat :=
  ((List.range SMPL_DOUT_WORDS).map env.dout) ++ [env.timeReg, numAttempts]

/-- The file operation of one single-tile run: none while the polling loop
is still spinning after the given fuel (the code would not return at
all). -/
def singleRunOp (env : SingleRunEnv) (fuel : Nat) : Option FileOp :=
  match loopSingle env.poll fuel 0 0 with
  | none => none
  | some (_, numAttempts) => some (.append (singleRunRecord env numAttempts))

/-- The append operations of runs start, start+1, ... (n of them). -/
def singleRunsOps (envs : Nat → SingleRunEnv) (fuel : Nat) :
    Nat → Nat → Option (List FileOp)
  | _, 0 => some []
  | start, n + 1 =>
      match singleRunOp (envs start) fuel with
      | none => none
      | some op =>
          match singleRunsOps envs fuel (start + 1) n with
          | none => none
          | some rest => some (op :: rest)

/-- File operations of a whole runSolverSingle batch (from the source):
the stale results file of the problem is deleted once, before the run
loop, then each run appends its record. -/
def runSolverSingleOps (envs : Nat → SingleRunEnv) (numRuns fuel : Nat) :
    Option (List FileOp) :=
  match singleRunsOps envs fuel 0 numRuns with
  | none => none
  | some l => some (.deleteResults :: l)

/-- Environment of one coupled run: the polling-read trace, the post-loop
elapsed-time register reads of the two tiles, and the two tiles'
output-sample register reads. -/
structure CoupledRunEnv where
  poll : Nat → CoupledReads
  timeRight : Nat
  timeLeft : Nat
  doutR : Nat → Nat
  doutL : Nat → Nat

/-- The result record of one coupled run (from the source): the selected
tile's SMPL_DOUT_WORDS output-sample words, then the selected tile's
elapsed-time register, then the attempt counter. -/
def coupledRunRecord (env : CoupledRunEnv) (numAttempts : Nat) : List Nat :=
  if env.timeRight > env.timeLeft then
    ((List.range SMPL_DOUT_WORDS).map env.doutR) ++ [env.timeRight, numAttempts]
  else
    ((List.range SMPL_DOUT_WORDS).map env.doutL) ++ [env.timeLeft, numAttempts]

/-- The file operation of one coupled run. -/
def coupledRunOp (env : CoupledRunEnv) (fuel : Nat) : Option FileOp :=
  match loopCoupled env.poll fuel 0 0 with
  | none => none
  | some e => some (.append (coupledRunRecord env e.numAttempts))

/-- The append operations of coupled runs start, start+1, ... (n of
them). -/
def coupledRunsOps (envs : Nat → CoupledRunEnv) (fuel : Nat) :
    Nat → Nat → Option (List FileOp)
  | _, 0 => some []
  | start, n + 1 =>
      match coupledRunOp (envs start) fuel with
      | none => none
      | some op =>
          match coupledRunsOps envs fuel (start + 1) n with
          | none => none
          | some rest => some (op :: rest)

/-- File operations of a whole runSolverCoupled batch (from the source). -/
def runSolverCoupledOps (envs : Nat → CoupledRunEnv) (numRuns fuel : Nat) :
    Option (List FileOp) :=
  match coupledRunsOps envs fuel 0 numRuns with
  | none => none
  | some l => some (.deleteResults :: l)

/-- An append operation carrying a well-formed result record:
SMPL_DOUT_WORDS sample words followed by an elapsed time and an attempt
count, SMPL_DOUT_WORDS + 2 words in total. -/
def IsRecordOp (op : FileOp) : Prop :=
  ∃ d t a, op = .append (d ++ [t, a]) ∧ d.length = SMPL_DOUT_WORDS

theorem singleRunOp_record (env : SingleRunEnv) (fuel : Nat) (op : FileOp)
    (h : singleRunOp env fuel = some op) : IsRecordOp op := by
  rw [singleRunOp] at h
  cases hl : loopSingle env.poll fuel 0 0 with
  | none => rw [hl] at h; cases h
  | some p =>
      rw [hl] at h
      cases h
      exact ⟨(List.range SMPL_DOUT_WORDS).map env.dout, env.timeReg, p.2,
        rfl, by simp⟩

theorem coupledRunOp_record (env : CoupledRunEnv) (fuel : Nat) (op : FileOp)
    (h : coupledRunOp env fuel = some op) : IsRecordOp op := by
  rw [coupledRunOp] at h
  cases hl : loopCoupled env.poll fuel 0 0 with
  | none => rw [hl] at h; cases h
  | some e =>
      rw [hl] at h
      cases h
      rw [coupledRunRecord]
      by_cases hc : env.timeRight > env.timeLeft
      · exact ⟨(List.range SMPL_DOUT_WORDS).map env.doutR, env.timeRight,
          e.numAttempts, by rw [if_pos hc], by simp⟩
      · exact ⟨(List.range SMPL_DOUT_WORDS).map env.doutL, env.timeLeft,
          e.numAttempts, by rw [if_neg hc], by simp⟩

theorem singleRunsOps_shape (envs : Nat → SingleRunEnv) (fuel : Nat) :
    ∀ n start l, singleRunsOps envs fuel start n = some l →
      l.length = n ∧ ∀ op ∈ l, IsRecordOp op := by
  intro n
  induction n with
  | zero =>
      intro start l h
      cases h
      exact ⟨rfl, by intro op hop; cases hop⟩
  | succ m ih =>
      intro start l h
      rw [singleRunsOps] at h
      cases hop : singleRunOp (envs start) fuel with
      | none => rw [hop] at h; cases h
      | some op =>
          rw [hop] at h
          cases hrest : singleRunsOps envs fuel (start + 1) m with
          | none => rw [hrest] at h; cases h
          | some rest =>
              rw [hrest] at h
              cases h
              obtain ⟨hlen, hall⟩ := ih (start + 1) rest hrest
              refine ⟨by simp [hlen], ?_⟩
              intro o ho
              rcases List.mem_cons.mp ho with rfl | ho2
              · exact singleRunOp_record (envs start) fuel o hop
              · exact hall o ho2

theorem coupledRunsOps_shape (envs : Nat → CoupledRunEnv) (fuel : Nat) :
    ∀ n start l, coupledRunsOps envs fuel start n = some l →
      l.length = n ∧ ∀ op ∈ l, IsRecordOp op := by
  intro n
  induction n with
  | zero =>
      intro start l h
      cases h
      exact ⟨rfl, by intro op hop; cases hop⟩
  | succ m ih =>
      intro start l h
      rw [coupledRunsOps] at h
      cases hop : coupledRunOp (envs start) fuel with
      | none => rw [hop] at h; cases h
      | some op =>
          rw [hop] at h
          cases hrest : coupledRunsOps envs fuel (start + 1) m with
          | none => rw [hrest] at h; cases h
          | some rest =>
              rw [hrest] at h
              cases h
              obtain ⟨hlen, hall⟩ := ih (start + 1) rest hrest
              refine ⟨by simp [hlen], ?_⟩
              intro o ho
              rcases List.mem_cons.mp ho with rfl | ho2
              · exact coupledRunOp_record (envs start) fuel o hop
              · exact hall o ho2

/-- Claim C8: whenever a run batch returns (every polling loop exited
within the fuel), its file-operation sequence starts with exactly one
deletion of the prior results file, before any record, followed by exactly
one appended record per run; every record is a fixed-size sequence of
SMPL_DOUT_WORDS + 2 words laid out as sample output words, then the
elapsed-time register, then the attempt count.  This holds for the
single-tile batch and for the coupled batch. -/
theorem run_batch_ops_shape (envs : Nat → SingleRunEnv)
    (cenvs : Nat → CoupledRunEnv) (numRuns fuel : Nat) :
    (∀ ops, runSolverSingleOps envs numRuns fuel = some ops →
      ∃ recs, ops = .deleteResults :: recs ∧ recs.length = numRuns ∧
        ∀ op ∈ recs, ∃ d t a, op = .append (d ++ [t, a]) ∧
          (d ++ [t, a]).length = SMPL_DOUT_WORDS + 2) ∧
    (∀ ops, runSolverCoupledOps cenvs numRuns fuel = some ops →
      ∃ recs, ops = .deleteResults :: recs ∧ recs.length = numRuns ∧
        ∀ op ∈ recs, ∃ d t a, op = .append (d ++ [t, a]) ∧
          (d ++ [t, a]).length = SMPL_DOUT_WORDS + 2) := by
  constructor
  · intro ops h
    rw [runSolverSingleOps] at h
    cases hl : singleRunsOps envs fuel 0 numRuns with
    | none => rw [hl] at h; cases h
    | some l =>
        rw [hl] at h
        cases h
        obtain ⟨hlen, hall⟩ := singleRunsOps_shape envs fuel numRuns 0 l hl
        refine ⟨l, rfl, hlen, ?_⟩
        intro op hop
        obtain ⟨d, t, a, heq, hd⟩ := hall op hop
        exact ⟨d, t, a, heq, by simp [hd]⟩
  · intro ops h
    rw [runSolverCoupledOps] at h
    cases hl : coupledRunsOps cenvs fuel 0 numRuns with
    | none => rw [hl] at h; cases h
    | some l =>
        rw [hl] at h
        cases h
        obtain ⟨hlen, hall⟩ := coupledRunsOps_shape cenvs fuel numRuns 0 l hl
        refine ⟨l, rfl, hlen, ?_⟩
        intro op hop
        obtain ⟨d, t, a, heq, hd⟩ := hall op hop
        exact ⟨d, t, a, heq, by simp [hd]⟩

/-- Witness for claim C8 at fuel 1, one run, with traces that converge on
the first poll: the single batch issues the deletion and then one record,
and so does the coupled batch. -/
theorem run_batch_ops_shape_witness :
    (∃ recs,
      FileOp.deleteResults ::
          [FileOp.append [7, 7, 7, 7, 100, 0]] = .deleteResults :: recs ∧
        recs.length = 1 ∧
        ∀ op ∈ recs, ∃ d t a, op = .append (d ++ [t, a]) ∧
          (d ++ [t, a]).length = SMPL_DOUT_WORDS + 2) ∧
      runSolverSingleOps (fun _ => ⟨fun _ => ⟨1, 100⟩, 100, fun _ => 7⟩) 1 1 =
        some [.deleteResults, .append [7, 7, 7, 7, 100, 0]] := by
  have hok : timeExceeds 100 = false := by
    rw [timeExceeds_eq]; decide
  have hrun : runSolverSingleOps
      (fun _ => ⟨fun _ => ⟨1, 100⟩, 100, fun _ => 7⟩) 1 1 =
        some [.deleteResults, .append [7, 7, 7, 7, 100, 0]] := by
    simp [runSolverSingleOps, singleRunsOps, singleRunOp, loopSingle,
      classifySingle, hok, singleRunRecord, SMPL_DOUT_WORDS, List.range_succ]
  refine ⟨?_, hrun⟩
  exact (run_batch_ops_shape (fun _ => ⟨fun _ => ⟨1, 100⟩, 100, fun _ => 7⟩)
    (fun _ => ⟨fun _ => ⟨1, 1, 100, 100⟩, 100, 100, fun _ => 7, fun _ => 9⟩)
    1 1).1 _ hrun

/-! ## Clause splitting of runSolverCoupled

Translated from MEDUSA.cpp, MEDUSA::runSolverCoupled: the problem's
clauses are split in order, the first numCls / 2 rows copied element by
element into the RIGHT tile array and the remaining numCls - numCls / 2
rows into the LEFT tile array. -/

/-- Modelled from the spec: MEDUSA.h is absent from the sources.  Maximum
number of literals per clause; each stored clause row carries
CNF_MAX_K + 1 entries (the trailing zero terminator included). -/
def CNF_MAX_K : Nat := 3

/-- One stored clause row: the CNF_MAX_K + 1 entries of row i of the cnf
array (from the source; the copy loops run over every entry of a row, so a
copied row equals the original row). -/
def cnfRow (cnf : Nat → Nat → Int) (i : Nat) : List Int :=
  (List.range (CNF_MAX_K + 1)).map (cnf i)

/-- The RIGHT tile clause array built by runSolverCoupled (from the
source): rows 0 to numCls / 2 - 1, copied unchanged. -/
def splitCnfR (cnf : Nat → Nat → Int) (numCls : Nat) : List (List Int) :=
  (List.range (numCls / 2)).map (cnfRow cnf)

/-- The LEFT tile clause array built by runSolverCoupled (from the
source): the remaining numCls - numCls / 2 rows, row i of the LEFT array
being row i + numCls / 2 of the problem, copied unchanged. -/
def splitCnfL (cnf : Nat → Nat → Int) (numCls : Nat) : List (List Int) :=
  (List.range (numCls - numCls / 2)).map (fun i => cnfRow cnf (i + numCls / 2))

/-- Claim C10: runSolverCoupled splits a problem of numCls clauses in
order: the RIGHT tile receives the first numCls / 2 clauses and the LEFT
tile the remaining numCls - numCls / 2 clauses, each clause row copied
unchanged, and the two tile arrays concatenate back to the full ordered
clause list, so every input clause is programmed into exactly one
tile. -/
theorem coupled_split (cnf : Nat → Nat → Int) (numCls : Nat) :
    (splitCnfR cnf numCls).length = numCls / 2 ∧
    (splitCnfL cnf numCls).length = numCls - numCls / 2 ∧
    splitCnfR cnf numCls ++ splitCnfL cnf numCls =
      (List.range numCls).map (cnfRow cnf) := by
  refine ⟨by simp [splitCnfR], by simp [splitCnfL], ?_⟩
  have key : ∀ (f : Nat → List Int) (a b : Nat),
      (List.range a).map f ++ (List.range b).map (fun i => f (i + a)) =
        (List.range (a + b)).map f := by
    intro f a b
    rw [List.range_add, List.map_append, List.map_map]
    have : (fun i => f (i + a)) = f ∘ (a + ·) := by
      funext i
      simp [Nat.add_comm]
    rw [this]
  rw [splitCnfR, splitCnfL, key (cnfRow cnf) (numCls / 2) (numCls - numCls / 2),
    show numCls / 2 + (numCls - numCls / 2) = numCls by omega]

end Medusa
